import Mathlib

set_option maxHeartbeats 1000000

/-!
Verification of the incremental activity-polling subsystem of the
`cl-bot-python` repository: the cursor store (`src/config.py`,
`load_state` / `save_state`) and the per-server poll pass
(`src/cogs/pterodactyl.py`, `Pterodactyl.activity_loop`, lines 272-356,
together with `Pterodactyl.extract_activity_id`, lines 190-195).

The embedding is shallow: network fetches are passed in as
`Except Unit (List PItem)` values (the page the API returned, or the
exception the fetch raised), the Discord channel sink is a function
`PItem → Bool` (`true` = the send succeeded, `false` = it raised), and
the persisted JSON state is an insertion-ordered association list.
-/

namespace CLBot

/-- An activity item as received from the panel API, reduced to the two
lookups `extract_activity_id` performs. `attrs` models
`item.get("attributes")`: `none` when the `attributes` key is absent (Python
then falls back to the item itself), `some a` when present, where `a` is the
stringified value of `attributes.get("id")` (`none` if that key is absent).
`topId` models the stringified `item.get("id")`. -/
structure PItem where
  attrs : Option (Option String)
  topId : Option String
deriving DecidableEq, Repr

/-- Python truthiness of an optional string: `None` and `""` are falsy. -/
def truthy : Option String → Bool
  | none => false
  | some s => decide (s ≠ "")

/-- Python `a or b` on optional strings: yields `a` when `a` is truthy,
otherwise `b`. -/
def pyOr (a b : Option String) : Option String :=
  if truthy a then a else b

/-- Model of `Pterodactyl.extract_activity_id` (src/cogs/pterodactyl.py,
lines 190-195): `attr = item.get("attributes", item)`;
`raw = attr.get("id") or item.get("id")`; `None` stays `None`, anything else
is stringified (the model already carries strings). -/
def extract_activity_id (it : PItem) : Option String :=
  let attrId :=
    match it.attrs with
    | some a => a
    | none => it.topId
  pyOr attrId it.topId

/-- Convenience: a feed item with `attributes.id = s` and no top-level id. -/
def ev (s : String) : PItem := ⟨some (some s), none⟩

/-- Ids extractable from a list of feed items, in feed order. -/
def idsOf (l : List PItem) : List String := l.filterMap extract_activity_id

/-- Id of the newest (first) item of a page, if any. -/
def head_id (l : List PItem) : Option String :=
  match l with
  | [] => none
  | a :: _ => extract_activity_id a

/-- Model of the seeding phase of `activity_loop` for one server
(src/cogs/pterodactyl.py, lines 293-309): when the server has no `last_id`,
fetch with `per_page=1`; on an exception `continue` (stay cursor-less); on a
non-empty page take the first item's id and store it only when truthy; an
empty page leaves the server cursor-less. A server that already has a
cursor is untouched. -/
def seed_step (fetched : Except Unit (List PItem)) (last : Option String) :
    Option String :=
  match last with
  | some s => some s
  | none =>
    match fetched with
    | Except.error _ => none
    | Except.ok activities =>
      match activities with
      | [] => none
      | a :: _ =>
        let latest := extract_activity_id a
        if truthy latest then latest else none

/-- Model of the new-items collection loop of `activity_loop`
(src/cogs/pterodactyl.py, lines 337-344): walk the page newest-first; an
item with no extractable id is skipped (`continue`); an item whose id equals
`last_id` stops the walk (`break`); every other item is appended. When
`last` is `none` the Python comparison `act_id == last_id` is never true, so
the walk never breaks. -/
def collect_new (last : Option String) : List PItem → List PItem
  | [] => []
  | a :: rest =>
    match extract_activity_id a with
    | none => collect_new last rest
    | some i =>
      if some i = last then []
      else a :: collect_new last rest

/-- Model of the emission loop of `activity_loop` (src/cogs/pterodactyl.py,
lines 349-351): events are sent one after another; a failing send raises out
of the loop, so nothing after it is delivered. Returns the delivered events
and whether every send succeeded. -/
def send_all (send : PItem → Bool) : List PItem → List PItem × Bool
  | [] => ([], true)
  | a :: rest =>
    if send a then
      let r := send_all send rest
      (a :: r.1, r.2)
    else ([], false)

/-- Observable outcome of the warm-poll body for one server: the events
delivered to the channel, the server's cursor afterwards, whether
`save_state` was called in this body, and whether an exception escaped the
body (aborting the rest of the pass). -/
structure StepResult where
  emitted : List PItem
  cursor : Option String
  saved : Bool
  raised : Bool
deriving DecidableEq, Repr

/-- Model of the warm-poll body of `activity_loop` for one server
(src/cogs/pterodactyl.py, lines 312-356): on a fetch exception `continue`
(nothing changes); on an empty page `continue`; when the server is still
cursor-less and the newest item's id is truthy, store that id, save, and
`continue` without emitting; otherwise collect the new-items buffer, emit it
reversed (oldest first) until a send fails, and if all sends succeeded and
the buffer head's id is truthy, store it as the new cursor and save. -/
def warm_step (send : PItem → Bool) (fetched : Except Unit (List PItem))
    (last : Option String) : StepResult :=
  match fetched with
  | Except.error _ => ⟨[], last, false, false⟩
  | Except.ok activities =>
    match activities with
    | [] => ⟨[], last, false, false⟩
    | newest :: _ =>
      let newest_id := extract_activity_id newest
      if last.isNone && truthy newest_id then
        ⟨[], newest_id, true, false⟩
      else
        match collect_new last activities with
        | [] => ⟨[], last, false, false⟩
        | first :: _ =>
          let r := send_all send (collect_new last activities).reverse
          if r.2 then
            let updated := extract_activity_id first
            if truthy updated then ⟨r.1, updated, true, false⟩
            else ⟨r.1, last, false, false⟩
          else ⟨r.1, last, false, true⟩

/-- One full pass of `activity_loop` restricted to a single server: the
seeding phase (lines 293-310) followed by the warm-poll phase (lines
312-356), each given the page its fetch returned (or its exception). -/
def server_pass (send : PItem → Bool)
    (seedFetch warmFetch : Except Unit (List PItem))
    (last : Option String) : StepResult :=
  warm_step send warmFetch (seed_step seedFetch last)

/-- Multi-pass semantics for one server: each element of `snaps` is the feed
snapshot during one pass; the seeding fetch of a pass sees the first element
of that snapshot (`per_page=1`) and the warm fetch sees the whole snapshot
(`per_page=50`; snapshots in the theorems stay below the page cap). Returns
all events emitted across the passes, in emission order, and the final
cursor. -/
def run_passes (send : PItem → Bool) (cur : Option String) :
    List (List PItem) → List PItem × Option String
  | [] => ([], cur)
  | s :: rest =>
    let r := server_pass send (Except.ok (s.take 1)) (Except.ok s) cur
    let t := run_passes send r.cursor rest
    (r.emitted ++ t.1, t.2)

/-- Cumulative feed snapshots: starting from snapshot `b`, each later pass
sees `n ++ previous` where `n` is the block of events new since the previous
pass (newest-first pages grow at the front). -/
def snap_list (b : List PItem) : List (List PItem) → List (List PItem)
  | [] => []
  | n :: rest => (n ++ b) :: snap_list (n ++ b) rest

/-- Final feed contents after all the new blocks have arrived. -/
def grow_all (b : List PItem) : List (List PItem) → List PItem
  | [] => b
  | n :: rest => grow_all (n ++ b) rest

/-- Every item of the list has an extractable, truthy id. -/
def good_items (l : List PItem) : Bool :=
  l.all fun e =>
    match extract_activity_id e with
    | some s => decide (s ≠ "")
    | none => false

/-!
Model of the persisted state file (`src/config.py`). The JSON document is an
insertion-ordered association list, matching Python dict semantics.
-/

/-- JSON values, as far as the persisted state file needs them. -/
inductive JVal where
  | jnull : JVal
  | jbool : Bool → JVal
  | jnum : Int → JVal
  | jstr : String → JVal
  | jobj : List (String × JVal) → JVal

/-- Dictionary lookup `d.get(k)`. -/
def dget : List (String × JVal) → String → Option JVal
  | [], _ => none
  | (k, v) :: rest, key => if k = key then some v else dget rest key

/-- Dictionary assignment `d[k] = v`: replaces the value in place when the
key is present, appends at the end otherwise (Python dicts keep insertion
order). `setdefault(k, v)` mutates the dict the same way when `k` is
absent and leaves it unchanged otherwise. -/
def dset : List (String × JVal) → String → JVal → List (String × JVal)
  | [], key, v => [(key, v)]
  | (k, w) :: rest, key, v =>
    if k = key then (key, v) :: rest else (k, w) :: dset rest key v

/-- Value that `d.setdefault(key, dict())` evaluates to. -/
def dsetdefault_obj (d : List (String × JVal)) (key : String) : JVal :=
  match dget d key with
  | some v => v
  | none => JVal.jobj []

/-- View of a JSON value as a dictionary, `none` when it is not one. -/
def asObj : JVal → Option (List (String × JVal))
  | JVal.jobj m => some m
  | _ => none

/-- Model of `load_state` (src/config.py, lines 99-107). The argument is
`none` when the state file does not exist, `some (Except.error ())` when
reading or JSON-parsing it raises, and `some (Except.ok v)` when it parses
to the document `v`. The function returns the parsed top-level mapping, or
the empty mapping in every other case, and never raises (it is total). -/
def load_state (file : Option (Except Unit JVal)) : List (String × JVal) :=
  match file with
  | none => []
  | some (Except.error _) => []
  | some (Except.ok payload) =>
    match payload with
    | JVal.jobj m => m
    | _ => []

/-- Mutation that `activity_loop` applies to the loaded state around one
save for one server (src/cogs/pterodactyl.py, lines 289-310 and 353-356):
`state.setdefault("pterodactyl", dict()).setdefault("servers", dict())`,
then `ptero_state.setdefault(identifier, dict())`, then — when the pass
determined a (new) cursor value `v` — `server_state["last_id"] = v`.
Returns `none` when an existing value on the path is not a dictionary, in
which case the Python code raises before writing anything. -/
def update_state (ident : String) (v : Option String)
    (state : List (String × JVal)) : Option (List (String × JVal)) :=
  match asObj (dsetdefault_obj state "pterodactyl") with
  | none => none
  | some pt =>
    match asObj (dsetdefault_obj pt "servers") with
    | none => none
    | some servers =>
      match asObj (dsetdefault_obj servers ident) with
      | none => none
      | some srv =>
        some (dset state "pterodactyl" (JVal.jobj (dset pt "servers"
          (JVal.jobj (dset servers ident (JVal.jobj
            (match v with
             | some s => dset srv "last_id" (JVal.jstr s)
             | none => srv)))))))

/-!
Model of `save_state` (src/config.py, lines 110-112) at the level of the
file-system operations it performs.
-/

/-- Primitive file-system operations a save routine may perform. -/
inductive FsOp where
  | write : String → String → FsOp
  | rename : String → String → FsOp
deriving DecidableEq, Repr

/-- Model of `save_state` (src/config.py, lines 110-112):
`target.write_text(json.dumps(state, indent=2))` — a single direct
whole-file write of the serialized state to the target path; no temporary
file, no rename. -/
def save_state_ops (target contents : String) : List FsOp :=
  [FsOp.write target contents]

/-- Modelled from the spec: "write to a temporary location and rename, or
use an equivalent atomic-replace primitive" — the target path must receive
its contents through a rename and must never be the destination of a direct
write, so that a reader can never observe a half-written file. -/
def atomic_replace (target : String) (ops : List FsOp) : Bool :=
  (ops.any fun op =>
    match op with
    | FsOp.rename _ dst => decide (dst = target)
    | _ => false) &&
  (ops.all fun op =>
    match op with
    | FsOp.write p _ => decide (p ≠ target)
    | _ => true)

/-- Sink that fails exactly on the event whose extracted id is `bad`. -/
def fail_on (bad : String) : PItem → Bool :=
  fun e => !(extract_activity_id e == some bad)

/-- Example persisted state with foreign keys at every nesting level. -/
def example_state : List (String × JVal) :=
  [("tebex", JVal.jnum 3),
   ("pterodactyl", JVal.jobj
     [("servers", JVal.jobj
        [("sb4", JVal.jobj [("note", JVal.jbool true)])]),
      ("extra", JVal.jnull)])]

/-- The example state after the poller stores cursor `"9"` for `"sb4"`. -/
def example_state2 : List (String × JVal) :=
  [("tebex", JVal.jnum 3),
   ("pterodactyl", JVal.jobj
     [("servers", JVal.jobj
        [("sb4", JVal.jobj
          [("note", JVal.jbool true), ("last_id", JVal.jstr "9")])]),
      ("extra", JVal.jnull)])]

/-!
Helper lemmas about the embedded operations.
-/

theorem send_all_eq (send : PItem → Bool) (l : List PItem) :
    send_all send l = (l.takeWhile send, l.all send) := by
  induction l with
  | nil => rfl
  | cons a rest ih =>
    by_cases h : send a <;>
      simp [send_all, List.takeWhile_cons, List.all_cons, h, ih]

theorem send_all_true (l : List PItem) :
    send_all (fun _ => true) l = (l, true) := by
  induction l with
  | nil => rfl
  | cons a rest ih => simp [send_all, ih]

theorem collect_new_sublist (last : Option String) (l : List PItem) :
    (collect_new last l).Sublist l := by
  induction l with
  | nil => simp [collect_new]
  | cons a rest ih =>
    simp only [collect_new]
    cases extract_activity_id a with
    | none => exact ih.cons a
    | some i =>
      by_cases hi : some i = last
      · simp [hi]
      · simpa [hi] using ih.cons₂ a

theorem takeWhile_of_all_true (p : PItem → Bool) (l : List PItem)
    (h : l.all p = true) : l.takeWhile p = l := by
  induction l with
  | nil => rfl
  | cons a rest ih =>
    simp only [List.all_cons, Bool.and_eq_true] at h
    simp [List.takeWhile_cons, h.1, ih h.2]

theorem warm_step_coll_nil (send : PItem → Bool) (a : PItem)
    (rest : List PItem) (lid : String)
    (hc : collect_new (some lid) (a :: rest) = []) :
    warm_step send (Except.ok (a :: rest)) (some lid) =
      ⟨[], some lid, false, false⟩ := by
  simp [warm_step, hc]

theorem warm_step_coll_cons (send : PItem → Bool) (a : PItem)
    (rest : List PItem) (lid : String) (first : PItem) (l2 : List PItem)
    (hc : collect_new (some lid) (a :: rest) = first :: l2) :
    warm_step send (Except.ok (a :: rest)) (some lid) =
      if (first :: l2).reverse.all send then
        if truthy (extract_activity_id first) then
          ⟨((first :: l2).reverse).takeWhile send,
            extract_activity_id first, true, false⟩
        else ⟨((first :: l2).reverse).takeWhile send, some lid, false,
          false⟩
      else ⟨((first :: l2).reverse).takeWhile send, some lid, false,
        true⟩ := by
  by_cases hall : ((first :: l2).reverse.all send) = true
  · have htw := takeWhile_of_all_true send (first :: l2).reverse hall
    by_cases ht : truthy (extract_activity_id first) = true
    · simp [warm_step, hc, send_all_eq, hall, ht, htw]
    · simp [warm_step, hc, send_all_eq, hall, ht, htw]
  · simp only [Bool.not_eq_true] at hall
    simp [warm_step, hc, send_all_eq, hall]

theorem warm_step_emitted_ok (send : PItem → Bool) (page : List PItem)
    (cur : Option String) :
    (warm_step send (Except.ok page) cur).emitted = [] ∨
    (warm_step send (Except.ok page) cur).emitted =
      ((collect_new cur page).reverse).takeWhile send := by
  cases page with
  | nil => exact Or.inl rfl
  | cons a rest =>
    simp only [warm_step]
    split
    · exact Or.inl rfl
    · split
      · exact Or.inl rfl
      · right
        simp only [send_all_eq]
        split <;> (try split) <;> rfl

/-!
Claim theorems.
-/

/-- Claim C5: on a warm poll, a fetch failure skips the server for the
current pass — nothing is emitted, the cursor is not mutated, nothing is
saved, no exception escapes — and the next cycle polls from the same cursor
value. -/
theorem fetch_failure_skips_server (send send2 : PItem → Bool)
    (last : Option String) :
    warm_step send (Except.error ()) last = ⟨[], last, false, false⟩ ∧
    ∀ f2, warm_step send2 f2 (warm_step send (Except.error ()) last).cursor =
      warm_step send2 f2 last :=
  ⟨rfl, fun _ => rfl⟩

/-- Claim C3 fails on the code: at a concrete save, the operation sequence
`save_state` performs is not an atomic replace — the target path is the
destination of a direct write and no rename occurs, so a reader can observe
a half-written file. -/
theorem save_state_not_atomic :
    atomic_replace "/root/.packbot_state.json"
      (save_state_ops "/root/.packbot_state.json" "serialized-state") =
      false := by
  decide

/-- Claim C3 amended: `save_state` overwrites the persisted representation
with a single direct whole-file write to the target path; it performs no
rename and writes no temporary file, so the overwrite is not an atomic
replace and a reader can observe a partially written file. -/
theorem save_state_single_direct_write (target contents : String) :
    save_state_ops target contents = [FsOp.write target contents] ∧
    (save_state_ops target contents).all
      (fun op =>
        match op with
        | FsOp.rename _ _ => false
        | _ => true) = true :=
  ⟨rfl, rfl⟩

/-- Claim C8: `load_state` never raises; a missing file, an unreadable or
unparsable file, and a parsed document whose top level is not a mapping all
yield the empty mapping, while a parsed top-level mapping is returned as
is. -/
theorem load_state_never_raises (file : Option (Except Unit JVal)) :
    (file = none → load_state file = []) ∧
    (∀ e, file = some (Except.error e) → load_state file = []) ∧
    (∀ v, file = some (Except.ok v) → asObj v = none →
      load_state file = []) ∧
    (∀ m, file = some (Except.ok (JVal.jobj m)) → load_state file = m) := by
  refine ⟨?_, ?_, ?_, ?_⟩
  · rintro rfl; rfl
  · rintro e rfl; rfl
  · rintro v rfl hv
    cases v with
    | jobj m => simp [asObj] at hv
    | jnull => rfl
    | jbool b => rfl
    | jnum n => rfl
    | jstr s => rfl
  · rintro m rfl; rfl

/-- Concrete instance for C8: a state file holding the JSON string
`"oops"` (valid JSON whose top level is not a mapping) loads as the empty
mapping. -/
theorem load_state_never_raises_witness :
    load_state (some (Except.ok (JVal.jstr "oops"))) = [] :=
  (load_state_never_raises _).2.2.1 (JVal.jstr "oops") rfl rfl

/-- Claim C1: the concrete two-pass scenario. Starting cursor-less, the
cold-start pass for `"sb4"` with a limit-1 seeding page headed by id
`"105"` emits nothing and leaves the cursor at `"105"`, and the seeding
save writes `pterodactyl.servers.sb4.last_id = "105"` into the empty
store; the next pass's warm page `["107","106","105","104"]` yields the
new buffer `["107","106"]`, emits `"106"` then `"107"` in that order, and
advances the cursor to `"107"`. -/
theorem cold_start_scenario :
    server_pass (fun _ => true) (Except.ok [ev "105"])
        (Except.ok [ev "105", ev "104", ev "103"]) none =
      ⟨[], some "105", false, false⟩ ∧
    update_state "sb4" (some "105") [] =
      some [("pterodactyl", JVal.jobj [("servers", JVal.jobj
        [("sb4", JVal.jobj [("last_id", JVal.jstr "105")])])])] ∧
    collect_new (some "105") [ev "107", ev "106", ev "105", ev "104"] =
      [ev "107", ev "106"] ∧
    server_pass (fun _ => true) (Except.ok [ev "107"])
        (Except.ok [ev "107", ev "106", ev "105", ev "104"]) (some "105") =
      ⟨[ev "106", ev "107"], some "107", true, false⟩ :=
  ⟨by decide, rfl, by decide, by decide⟩

/-- Claim C10: the second seeding path. When a server is still cursor-less
at the warm-poll stage (here because the limit-1 seeding fetch failed
earlier in the same pass) and the limit-50 fetch succeeds with a non-empty
page whose newest event has a truthy id, the cursor is set to that id, the
state is saved, and no event is emitted for that server in this pass. -/
theorem warm_poll_seeds_missing_cursor (send : PItem → Bool) (e : PItem)
    (rest : List PItem) (s : String)
    (h1 : extract_activity_id e = some s) (h2 : s ≠ "") :
    server_pass send (Except.error ()) (Except.ok (e :: rest)) none =
      ⟨[], some s, true, false⟩ := by
  unfold server_pass seed_step warm_step
  simp [h1, truthy, h2]

/-- Concrete instance for C10: a cursor-less server whose seeding fetch
failed and whose warm page is `[ev "42"]` ends the pass with cursor `"42"`,
a save, and no emission. -/
theorem warm_poll_seeds_missing_cursor_witness :
    server_pass (fun _ => true) (Except.error ()) (Except.ok [ev "42"])
      none = ⟨[], some "42", true, false⟩ :=
  warm_poll_seeds_missing_cursor (fun _ => true) (ev "42") [] "42" rfl
    (by decide)

/-- Claim C6: within a single pass, a server's emitted events appear in
strictly oldest-to-newest feed order — the emission batch is a sublist of
the reversed (hence oldest-first) fetched page, for every sink, fetched
page and cursor value. -/
theorem emission_order_oldest_first (send : PItem → Bool)
    (page : List PItem) (cur : Option String) :
    List.Sublist (warm_step send (Except.ok page) cur).emitted
      page.reverse := by
  rcases warm_step_emitted_ok send page cur with h | h
  · rw [h]; exact List.nil_sublist _
  · rw [h]
    exact (List.takeWhile_sublist send).trans
      ((collect_new_sublist cur page).reverse)

/-- Claim C7: on a warm poll whose fetched page nowhere contains the stored
`last_id` (every event has an extractable id and none equals it), every
fetched event is treated as new and emitted — the emission batch is exactly
the reversed page — and no error is raised. -/
theorem gap_emits_all (page : List PItem) (lid : String)
    (h1 : ∀ e ∈ page, (extract_activity_id e).isSome)
    (h2 : ∀ e ∈ page, extract_activity_id e ≠ some lid) :
    (warm_step (fun _ => true) (Except.ok page) (some lid)).emitted =
      page.reverse ∧
    (warm_step (fun _ => true) (Except.ok page) (some lid)).raised =
      false := by
  have hcoll : collect_new (some lid) page = page := by
    induction page with
    | nil => rfl
    | cons a rest ih =>
      obtain ⟨s, hs⟩ := Option.isSome_iff_exists.mp
        (h1 a (List.mem_cons_self a rest))
      have hne : ¬ (some s = some lid) := by
        intro hsl
        exact h2 a (List.mem_cons_self a rest) (hs.trans hsl)
      simp only [collect_new, hs, if_neg hne, List.cons.injEq, true_and]
      exact ih (fun e he => h1 e (List.mem_cons_of_mem a he))
        (fun e he => h2 e (List.mem_cons_of_mem a he))
  cases page with
  | nil => exact ⟨rfl, rfl⟩
  | cons a rest =>
    constructor <;>
    · simp only [warm_step, hcoll, send_all_true]
      simp
      try split <;> rfl
      try rfl


/-- Concrete instance for C7: with stored cursor `"5"` and fetched page
`["9","8"]` (which contains `"5"` nowhere), both events are emitted, oldest
first, and no error is raised. -/
theorem gap_emits_all_witness :
    (warm_step (fun _ => true) (Except.ok [ev "9", ev "8"])
      (some "5")).emitted = [ev "8", ev "9"] ∧
    (warm_step (fun _ => true) (Except.ok [ev "9", ev "8"])
      (some "5")).raised = false :=
  ⟨((gap_emits_all [ev "9", ev "8"] "5" (by decide) (by decide)).1).trans
    (by decide),
   (gap_emits_all [ev "9", ev "8"] "5" (by decide) (by decide)).2⟩

/-- Claim C4 fails on the code: the emission loop has no per-event error
handling, so at a concrete warm poll (cursor `"100"`, page
`["103","102","101","100"]`, sink failing on event `"102"`), the failure
prevents delivery of the subsequent event `"103"`, the cursor stays at
`"100"`, nothing is saved, and the exception escapes the pass. -/
theorem delivery_failure_blocks_rest :
    ¬ (ev "103") ∈ (warm_step (fail_on "102")
        (Except.ok [ev "103", ev "102", ev "101", ev "100"])
        (some "100")).emitted ∧
    (warm_step (fail_on "102")
        (Except.ok [ev "103", ev "102", ev "101", ev "100"])
        (some "100")).cursor = some "100" ∧
    (warm_step (fail_on "102")
        (Except.ok [ev "103", ev "102", ev "101", ev "100"])
        (some "100")).saved = false ∧
    (warm_step (fail_on "102")
        (Except.ok [ev "103", ev "102", ev "101", ev "100"])
        (some "100")).raised = true := by
  decide

/-- Claim C4 amended: a delivery failure for one event raises out of the
emission loop — the events after the failing one in the same batch are not
delivered (only the prefix the sink accepted was sent), the cursor is not
advanced, nothing is persisted for that server, and the exception aborts
the rest of the pass. -/
theorem delivery_failure_aborts_pass (send : PItem → Bool)
    (page : List PItem) (lid : String)
    (h : (warm_step send (Except.ok page) (some lid)).raised = true) :
    (warm_step send (Except.ok page) (some lid)).cursor = some lid ∧
    (warm_step send (Except.ok page) (some lid)).saved = false ∧
    (warm_step send (Except.ok page) (some lid)).emitted =
      ((collect_new (some lid) page).reverse).takeWhile send := by
  cases page with
  | nil => simp [warm_step] at h
  | cons a rest =>
    cases hc : collect_new (some lid) (a :: rest) with
    | nil =>
      rw [warm_step_coll_nil send a rest lid hc] at h
      simp at h
    | cons first l2 =>
      rw [warm_step_coll_cons send a rest lid first l2 hc] at h ⊢
      by_cases hall : ((first :: l2).reverse.all send) = true
      · rw [if_pos hall] at h
        by_cases ht : truthy (extract_activity_id first) = true
        · rw [if_pos ht] at h; simp at h
        · rw [if_neg ht] at h; simp at h
      · rw [if_neg hall] at h ⊢
        exact ⟨rfl, rfl, rfl⟩

/-- Concrete instance for C4 amended: at the counterexample input the
cursor stays `"100"`, nothing is saved, and the emitted prefix is what the
sink accepted before failing. -/
theorem delivery_failure_aborts_pass_witness :
    (warm_step (fail_on "102")
        (Except.ok [ev "103", ev "102", ev "101", ev "100"])
        (some "100")).cursor = some "100" ∧
    (warm_step (fail_on "102")
        (Except.ok [ev "103", ev "102", ev "101", ev "100"])
        (some "100")).saved = false ∧
    (warm_step (fail_on "102")
        (Except.ok [ev "103", ev "102", ev "101", ev "100"])
        (some "100")).emitted =
      ((collect_new (some "100")
        [ev "103", ev "102", ev "101", ev "100"]).reverse).takeWhile
        (fail_on "102") :=
  delivery_failure_aborts_pass (fail_on "102")
    [ev "103", ev "102", ev "101", ev "100"] "100" (by decide)


theorem dget_dset_self (d : List (String × JVal)) (key : String) (v : JVal) :
    dget (dset d key v) key = some v := by
  induction d with
  | nil => simp [dset, dget]
  | cons p rest ih =>
    obtain ⟨k, w⟩ := p
    by_cases h : k = key
    · simp [dset, dget, h]
    · simp [dset, dget, h, ih]

theorem dget_dset_ne (d : List (String × JVal)) (key k : String) (v : JVal)
    (h : k ≠ key) : dget (dset d key v) k = dget d k := by
  induction d with
  | nil => simp [dset, dget, Ne.symm h]
  | cons p rest ih =>
    obtain ⟨k2, w⟩ := p
    by_cases h2 : k2 = key
    · subst h2
      simp [dset, dget, Ne.symm h]
    · by_cases h3 : k2 = k
      · simp [dset, dget, h2, h3, h]
      · simp [dset, dget, h2, h3, ih]

/-- Claim C9: across a poller load/save cycle, everything outside the
poller's own writes is preserved unchanged, never deleted: top-level keys
other than `"pterodactyl"`, `pterodactyl`-level keys other than
`"servers"`, server-map keys other than the touched identifier, and
per-server keys other than `"last_id"` all keep their previous values,
at every nesting level. -/
theorem state_update_preserves_foreign_keys
    (state st2 : List (String × JVal)) (ident : String) (v : Option String)
    (h : update_state ident v state = some st2) :
    (∀ k, k ≠ "pterodactyl" → dget st2 k = dget state k) ∧
    (∀ pt, asObj (dsetdefault_obj state "pterodactyl") = some pt →
      ∃ pt2, dget st2 "pterodactyl" = some (JVal.jobj pt2) ∧
        (∀ k, k ≠ "servers" → dget pt2 k = dget pt k) ∧
        (∀ servers, asObj (dsetdefault_obj pt "servers") = some servers →
          ∃ sv2, dget pt2 "servers" = some (JVal.jobj sv2) ∧
            (∀ k, k ≠ ident → dget sv2 k = dget servers k) ∧
            (∀ srv, asObj (dsetdefault_obj servers ident) = some srv →
              ∃ sr2, dget sv2 ident = some (JVal.jobj sr2) ∧
                ∀ k, k ≠ "last_id" → dget sr2 k = dget srv k))) := by
  unfold update_state at h
  split at h
  · exact absurd h (by simp)
  · next pt hpt =>
    split at h
    · exact absurd h (by simp)
    · next servers hsv =>
      split at h
      · exact absurd h (by simp)
      · next srv hsr =>
        simp only [Option.some.injEq] at h
        subst h
        refine ⟨fun k hk => dget_dset_ne _ _ _ _ hk, ?_⟩
        rintro pt' hpt'
        rw [hpt] at hpt'
        cases hpt'
        refine ⟨_, dget_dset_self _ _ _,
          fun k hk => dget_dset_ne _ _ _ _ hk, ?_⟩
        rintro servers' hsv'
        rw [hsv] at hsv'
        cases hsv'
        refine ⟨_, dget_dset_self _ _ _,
          fun k hk => dget_dset_ne _ _ _ _ hk, ?_⟩
        rintro srv' hsr'
        rw [hsr] at hsr'
        cases hsr'
        refine ⟨_, dget_dset_self _ _ _, fun k hk => ?_⟩
        cases v with
        | none => rfl
        | some s => exact dget_dset_ne _ _ _ _ hk

/-!
Development for the multi-pass no-duplicate-emission property.
-/

theorem idsOf_append (l m : List PItem) :
    idsOf (l ++ m) = idsOf l ++ idsOf m :=
  List.filterMap_append l m extract_activity_id

theorem mem_idsOf (s : String) (l : List PItem) :
    s ∈ idsOf l ↔ ∃ e ∈ l, extract_activity_id e = some s := by
  simp [idsOf, List.mem_filterMap]

theorem good_items_iff (l : List PItem) :
    good_items l = true ↔
      ∀ e ∈ l, ∃ s, extract_activity_id e = some s ∧ s ≠ "" := by
  rw [good_items, List.all_eq_true]
  constructor
  · intro hg e he
    have hx := hg e he
    cases hs : extract_activity_id e with
    | none => simp [hs] at hx
    | some s =>
      simp only [hs] at hx
      exact ⟨s, rfl, of_decide_eq_true hx⟩
  · intro hg e he
    obtain ⟨s, hs, hne⟩ := hg e he
    simp [hs, hne]

theorem map_reverse_flatten_perm (L : List (List PItem)) :
    List.Perm ((L.map List.reverse).flatten) L.flatten := by
  induction L with
  | nil => rfl
  | cons x rest ih => simpa using List.Perm.append x.reverse_perm ih

theorem collect_new_append (n b : List PItem) (lid : String)
    (hn : ∀ e ∈ n, ∃ s, extract_activity_id e = some s ∧ s ≠ lid)
    (hb : head_id b = some lid) :
    collect_new (some lid) (n ++ b) = n := by
  induction n with
  | nil =>
    cases b with
    | nil => simp [head_id] at hb
    | cons a t =>
      simp only [head_id] at hb
      simp [collect_new, hb]
  | cons a n2 ih =>
    obtain ⟨s, hs, hne⟩ := hn a (List.mem_cons_self a n2)
    have hnolid : ¬ (some s = some lid) := fun hh => hne (Option.some.inj hh)
    simp only [List.cons_append, collect_new, hs, if_neg hnolid,
      List.cons.injEq, true_and]
    exact ih fun e he => hn e (List.mem_cons_of_mem a he)

theorem run_passes_warm (blocks : List (List PItem)) :
    ∀ (b : List PItem) (lid : String), b ≠ [] → head_id b = some lid →
      good_items (blocks.flatten ++ b) = true →
      (idsOf (blocks.flatten ++ b)).Nodup →
      run_passes (fun _ => true) (some lid) (snap_list b blocks) =
        ((blocks.map List.reverse).flatten, head_id (grow_all b blocks)) := by
  induction blocks with
  | nil =>
    intro b lid hb hhead hg hn
    simp [run_passes, snap_list, grow_all, hhead]
  | cons n rest ih =>
    intro b lid hb hhead hg hn
    obtain ⟨hb0, tb, rfl⟩ : ∃ x t, b = x :: t := by
      cases b with
      | nil => exact absurd rfl hb
      | cons x t => exact ⟨x, t, rfl⟩
    have hhead0 : extract_activity_id hb0 = some lid := hhead
    have hgood : ∀ e ∈ (n :: rest).flatten ++ (hb0 :: tb),
        ∃ s, extract_activity_id e = some s ∧ s ≠ "" :=
      (good_items_iff _).mp hg
    have hlidb : lid ∈ idsOf (hb0 :: tb) :=
      (mem_idsOf lid (hb0 :: tb)).mpr ⟨hb0, List.mem_cons_self _ _, hhead0⟩
    have hn2 : (idsOf n ++ (idsOf rest.flatten ++
        idsOf (hb0 :: tb))).Nodup := by
      simpa [idsOf_append] using hn
    have hdisj : (idsOf n).Disjoint
        (idsOf rest.flatten ++ idsOf (hb0 :: tb)) :=
      (List.nodup_append.mp hn2).2.2
    have hnforall : ∀ e ∈ n,
        ∃ s, extract_activity_id e = some s ∧ s ≠ lid := by
      intro e he
      obtain ⟨s, hs, -⟩ := hgood e
        (List.mem_append_left _
          (List.mem_flatten.mpr ⟨n, List.mem_cons_self _ _, he⟩))
      refine ⟨s, hs, fun hslid => ?_⟩
      subst hslid
      exact hdisj ((mem_idsOf s n).mpr ⟨e, he, hs⟩)
        (List.mem_append_right _ hlidb)
    cases n with
    | nil =>
      have hcoll : collect_new (some lid) (hb0 :: tb) = [] := by
        have h0 := collect_new_append [] (hb0 :: tb) lid
          (fun e he => absurd he (List.not_mem_nil e)) hhead
        simpa using h0
      have hr := warm_step_coll_nil (fun _ => true) hb0 tb lid hcoll
      have hih := ih (hb0 :: tb) lid hb hhead (by simpa using hg)
        (by simpa using hn)
      simp only [snap_list, run_passes, server_pass, seed_step,
        List.nil_append, hr]
      simp [hih, grow_all]
    | cons a n2 =>
      obtain ⟨sa, hsa, hsane⟩ := hgood a
        (List.mem_append_left _ (List.mem_flatten.mpr
          ⟨a :: n2, List.mem_cons_self _ _, List.mem_cons_self a n2⟩))
      have hcoll : collect_new (some lid) ((a :: n2) ++ (hb0 :: tb)) =
          a :: n2 :=
        collect_new_append (a :: n2) (hb0 :: tb) lid hnforall hhead
      have hr : warm_step (fun _ => true)
          (Except.ok (a :: (n2 ++ (hb0 :: tb)))) (some lid) =
          ⟨(a :: n2).reverse, some sa, true, false⟩ := by
        rw [warm_step_coll_cons (fun _ => true) a (n2 ++ (hb0 :: tb)) lid
          a n2 (by simpa using hcoll)]
        rw [if_pos (by simp), if_pos (by simp [truthy, hsa, hsane])]
        rw [takeWhile_of_all_true _ _ (by simp), hsa]
      have hgood2 : good_items
          (rest.flatten ++ (a :: (n2 ++ (hb0 :: tb)))) = true := by
        rw [good_items_iff]
        intro e he
        apply hgood
        simp only [List.mem_append, List.mem_cons, List.flatten_cons]
          at he ⊢
        tauto
      have hn3 : (idsOf
          (rest.flatten ++ (a :: (n2 ++ (hb0 :: tb))))).Nodup := by
        have hp := (List.perm_append_comm_assoc (idsOf (a :: n2))
          (idsOf rest.flatten) (idsOf (hb0 :: tb))).nodup hn2
        show (idsOf (rest.flatten ++ ((a :: n2) ++ (hb0 :: tb)))).Nodup
        rw [idsOf_append, idsOf_append]
        exact hp
      have hih := ih (a :: (n2 ++ (hb0 :: tb))) sa (by simp)
        (by simp [head_id, hsa]) hgood2 hn3
      simp only [snap_list, run_passes, server_pass, seed_step,
        List.cons_append, hr]
      simp [hih, grow_all]

/-- Claim C2: across a sequence of passes over one server whose feed
snapshots each extend the previous snapshot only with new events (all
events carrying distinct, truthy ids), the events emitted over all passes
are exactly the distinct ids seen across all snapshots minus the events of
the first snapshot (those are deliberately skipped by cold-start seeding),
and each such id is emitted exactly once. -/
theorem no_duplicate_emission (b : List PItem) (blocks : List (List PItem))
    (hb : b ≠ [])
    (hg : good_items (blocks.flatten ++ b) = true)
    (hn : (idsOf (blocks.flatten ++ b)).Nodup) :
    (idsOf (run_passes (fun _ => true) none
      (b :: snap_list b blocks)).1).Nodup ∧
    (∀ s, s ∈ idsOf (run_passes (fun _ => true) none
        (b :: snap_list b blocks)).1 ↔
      (s ∈ idsOf (blocks.flatten ++ b) ∧ s ∉ idsOf b)) := by
  obtain ⟨hb0, tb, rfl⟩ : ∃ x t, b = x :: t := by
    cases b with
    | nil => exact absurd rfl hb
    | cons x t => exact ⟨x, t, rfl⟩
  obtain ⟨lid, hlid, hlidne⟩ := (good_items_iff _).mp hg hb0
    (List.mem_append_right _ (List.mem_cons_self _ _))
  have hseed : seed_step (Except.ok ((hb0 :: tb).take 1)) none =
      some lid := by
    simp [seed_step, hlid, truthy, hlidne]
  have hcoll : collect_new (some lid) (hb0 :: tb) = [] := by
    have h0 := collect_new_append [] (hb0 :: tb) lid
      (fun e he => absurd he (List.not_mem_nil e)) hlid
    simpa using h0
  have hr1 : server_pass (fun _ => true)
      (Except.ok ((hb0 :: tb).take 1)) (Except.ok (hb0 :: tb)) none =
      ⟨[], some lid, false, false⟩ := by
    unfold server_pass
    rw [hseed]
    exact warm_step_coll_nil _ _ _ _ hcoll
  have hwarm := run_passes_warm blocks (hb0 :: tb) lid (by simp)
    hlid hg hn
  have hruns : (run_passes (fun _ => true) none
      ((hb0 :: tb) :: snap_list (hb0 :: tb) blocks)).1 =
      (blocks.map List.reverse).flatten := by
    simp only [run_passes, hr1]
    simp [hwarm]
  have hperm : List.Perm (idsOf ((blocks.map List.reverse).flatten))
      (idsOf blocks.flatten) :=
    (map_reverse_flatten_perm blocks).filterMap extract_activity_id
  rw [idsOf_append] at hn
  have hnflat : (idsOf blocks.flatten).Nodup := hn.of_append_left
  have hdisj : (idsOf blocks.flatten).Disjoint (idsOf (hb0 :: tb)) :=
    (List.nodup_append.mp hn).2.2
  rw [hruns]
  constructor
  · exact hperm.symm.nodup hnflat
  · intro s
    rw [hperm.mem_iff, idsOf_append]
    constructor
    · intro hs
      exact ⟨List.mem_append_left _ hs, fun hsb => hdisj hs hsb⟩
    · rintro ⟨hs, hsb⟩
      rcases List.mem_append.mp hs with h | h
      · exact h
      · exact absurd h hsb

/-- Concrete instance for C2: first snapshot `["2","1"]`, then new blocks
`["3"]`, `[]` and `["5","4"]`; across the four passes the emitted ids are
exactly `"3"`, `"4"`, `"5"`, each once. -/
theorem no_duplicate_emission_witness :
    (idsOf (run_passes (fun _ => true) none
      ([ev "2", ev "1"] :: snap_list [ev "2", ev "1"]
        [[ev "3"], [], [ev "5", ev "4"]])).1).Nodup ∧
    ("4" ∈ idsOf (run_passes (fun _ => true) none
      ([ev "2", ev "1"] :: snap_list [ev "2", ev "1"]
        [[ev "3"], [], [ev "5", ev "4"]])).1 ↔
      ("4" ∈ idsOf ([[ev "3"], [], [ev "5", ev "4"]].flatten ++
        [ev "2", ev "1"]) ∧ "4" ∉ idsOf [ev "2", ev "1"])) :=
  ⟨(no_duplicate_emission [ev "2", ev "1"] [[ev "3"], [], [ev "5", ev "4"]]
      (by decide) (by decide) (by decide)).1,
   (no_duplicate_emission [ev "2", ev "1"] [[ev "3"], [], [ev "5", ev "4"]]
      (by decide) (by decide) (by decide)).2 "4"⟩

/-- Concrete instance for C9: storing cursor `"9"` for `"sb4"` in the
example state leaves the foreign top-level key `"tebex"` (and an absent
key) untouched. -/
theorem state_update_preserves_foreign_keys_witness :
    update_state "sb4" (some "9") example_state = some example_state2 ∧
    dget example_state2 "tebex" = dget example_state "tebex" ∧
    dget example_state2 "unrelated" = dget example_state "unrelated" :=
  ⟨rfl,
   (state_update_preserves_foreign_keys example_state example_state2
     "sb4" (some "9") rfl).1 "tebex" (by decide),
   (state_update_preserves_foreign_keys example_state example_state2
     "sb4" (some "9") rfl).1 "unrelated" (by decide)⟩

end CLBot
